import Mathlib

/-
Shallow embedding of the wumpusworld repository (Rust) in Lean 4.

Source files embedded:
  src/wumpus.rs     - grid geometry, Map, Game, the action state machine
  src/algorithms.rs - hide_map, is_map_valid, pathfind, path_to_actions,
                      calculate_map_possibilities

Rust HashSet<Coordinate> is modelled as Finset Coordinate; HashMap key-value
stores are modelled as association lists where an insert prepends and a lookup
takes the first matching key.  Where the Rust code iterates over a HashSet in
arbitrary order, the embedding fixes the textual order of the four neighbour
offsets from the source (east, south, west, north).  Machine integers (i32)
are modelled as Int; the only place where an i32 bound is semantically used,
the i32::MAX sentinel in pathfind, keeps its literal value 2147483647.
-/

namespace WW

/-- Direction, from wumpus.rs. -/
inductive Direction where
  | East
  | South
  | West
  | North
deriving DecidableEq

def Direction.rotate_left : Direction → Direction
  | .East  => .North
  | .South => .East
  | .West  => .South
  | .North => .West

def Direction.rotate_right : Direction → Direction
  | .East  => .South
  | .South => .West
  | .West  => .North
  | .North => .East

def Direction.rotate_back : Direction → Direction
  | .East  => .West
  | .South => .North
  | .West  => .East
  | .North => .South

/-- Coordinate, from wumpus.rs: an integer pair. -/
structure Coordinate where
  x : Int
  y : Int
deriving DecidableEq

def Coordinate.get_front (c : Coordinate) (d : Direction) : Coordinate :=
  match d with
  | .East  => { c with x := c.x + 1 }
  | .South => { c with y := c.y - 1 }
  | .West  => { c with x := c.x - 1 }
  | .North => { c with y := c.y + 1 }

/-- The four neighbour cells in the textual order of the HashSet literal in
Coordinate::get_neighbours (east, south, west, north).  The list form fixes
an iteration order for the loops that traverse the neighbours. -/
def Coordinate.neighbourList (c : Coordinate) : List Coordinate :=
  [ { c with x := c.x + 1 },
    { c with y := c.y - 1 },
    { c with x := c.x - 1 },
    { c with y := c.y + 1 } ]

/-- Coordinate::get_neighbours, as the set of the four orthogonal neighbours. -/
def Coordinate.get_neighbours (c : Coordinate) : Finset Coordinate :=
  c.neighbourList.toFinset

/-- Coordinate::get_relative_direction, from wumpus.rs. -/
def Coordinate.get_relative_direction (c : Coordinate) (location : Coordinate) :
    Option Direction :=
  if location = c.get_front .East then some .East
  else if location = c.get_front .North then some .North
  else if location = c.get_front .West then some .West
  else if location = c.get_front .South then some .South
  else none

/-- Class, from wumpus.rs. -/
inductive Class where
  | Empty
  | Treasure
  | Wumpus
  | Pit
deriving DecidableEq

/-- Class::VALUES, in source order. -/
def Class.VALUES : List Class := [.Empty, .Treasure, .Wumpus, .Pit]

/-- ClassField, from wumpus.rs. -/
structure ClassField (α : Type) where
  empty    : α
  treasure : α
  wumpus   : α
  pit      : α
deriving DecidableEq

/-- Action, from wumpus.rs. -/
inductive Action where
  | Walk
  | Left
  | Right
  | Dig
  | Shoot
deriving DecidableEq

/-- Events, from wumpus.rs: one flag per percept. -/
structure Events where
  treasure : Bool
  wumpus   : Bool
  pit      : Bool
  glitter  : Bool
  stench   : Bool
  breeze   : Bool
  bonked   : Bool
  scream   : Bool
  gameover : Bool
deriving DecidableEq

/-- Events Default::default(): all flags false. -/
def Events.default : Events :=
  ⟨false, false, false, false, false, false, false, false, false⟩

/-- Map, from wumpus.rs. -/
structure Map where
  size       : Coordinate
  treasures  : Finset Coordinate
  wumpuses   : Finset Coordinate
  pits       : Finset Coordinate
  glitters   : Finset Coordinate
  stenches   : Finset Coordinate
  breezes    : Finset Coordinate
  discovered : Finset Coordinate
deriving DecidableEq

/-- Map Default::default(): size (3,3), every set empty. -/
def Map.default : Map :=
  { size := ⟨3, 3⟩, treasures := ∅, wumpuses := ∅, pits := ∅,
    glitters := ∅, stenches := ∅, breezes := ∅, discovered := ∅ }

/-- Map::encompass, from wumpus.rs: inclusive bounds check. -/
def Map.encompass (m : Map) (location : Coordinate) : Bool :=
  decide ((0 ≤ location.x ∧ location.x ≤ m.size.x) ∧
          (0 ≤ location.y ∧ location.y ≤ m.size.y))

/-- Map::add_treasure, from wumpus.rs. -/
def Map.add_treasure (m : Map) (location : Coordinate) : Map :=
  { m with treasures := insert location m.treasures,
           glitters := m.glitters ∪ location.get_neighbours }

/-- Map::add_wumpus, from wumpus.rs. -/
def Map.add_wumpus (m : Map) (location : Coordinate) : Map :=
  { m with wumpuses := insert location m.wumpuses,
           stenches := m.stenches ∪ location.get_neighbours }

/-- Map::add_pit, from wumpus.rs. -/
def Map.add_pit (m : Map) (location : Coordinate) : Map :=
  { m with pits := insert location m.pits,
           breezes := m.breezes ∪ location.get_neighbours }

/-- Map::remove_treasure, from wumpus.rs: erase the treasure, then drop each
neighbouring glitter that no remaining treasure justifies. -/
def Map.remove_treasure (m : Map) (location : Coordinate) : Map :=
  let treasures' := m.treasures.erase location
  let glitters_to_remove := location.get_neighbours.filter
    (fun neighbour => ¬ ∃ nn ∈ neighbour.get_neighbours, nn ∈ treasures')
  { m with treasures := treasures',
           glitters := m.glitters \ glitters_to_remove }

/-- Map::remove_wumpus, from wumpus.rs. -/
def Map.remove_wumpus (m : Map) (location : Coordinate) : Map :=
  let wumpuses' := m.wumpuses.erase location
  let stenches_to_remove := location.get_neighbours.filter
    (fun neighbour => ¬ ∃ nn ∈ neighbour.get_neighbours, nn ∈ wumpuses')
  { m with wumpuses := wumpuses',
           stenches := m.stenches \ stenches_to_remove }

/-- Map::remove_pit, from wumpus.rs. -/
def Map.remove_pit (m : Map) (location : Coordinate) : Map :=
  let pits' := m.pits.erase location
  let breezes_to_remove := location.get_neighbours.filter
    (fun neighbour => ¬ ∃ nn ∈ neighbour.get_neighbours, nn ∈ pits')
  { m with pits := pits',
           breezes := m.breezes \ breezes_to_remove }

/-- Map::apply_classes, from wumpus.rs: overwrite each listed location with
the class at the same index. -/
def Map.apply_classes (m : Map) (locations : List Coordinate)
    (classes : List Class) : Map :=
  (locations.zip classes).foldl
    (fun m lc =>
      let m := { m with treasures := m.treasures.erase lc.1,
                        wumpuses := m.wumpuses.erase lc.1,
                        pits := m.pits.erase lc.1 }
      match lc.2 with
      | .Treasure => { m with treasures := insert lc.1 m.treasures }
      | .Wumpus   => { m with wumpuses := insert lc.1 m.wumpuses }
      | .Pit      => { m with pits := insert lc.1 m.pits }
      | .Empty    => m)
    m

/-- Game, from wumpus.rs. -/
structure Game where
  map       : Map
  location  : Coordinate
  direction : Direction
  events    : Events
  game_over : Bool
  score     : Int
  arrows    : Int
deriving DecidableEq

def Game.SIZE_X : Int := 4
def Game.SIZE_Y : Int := 4
def Game.SPAWN_LOCATION : Coordinate := ⟨0, 0⟩
def Game.SPAWN_DIRECTION : Direction := .East
def Game.SPAWN_ARROWS : Int := 1
def Game.COUNT_TREASURES : Int := 2
def Game.COUNT_WUMPUSES : Int := 1
def Game.COUNT_PITS : Int := 3
def Game.SCORE_ACTION : Int := -1
def Game.SCORE_SHOT : Int := -10
def Game.SCORE_DUG : Int := -50
def Game.SCORE_TREASURE : Int := 250
def Game.SCORE_WUMPUS : Int := -200
def Game.SCORE_PIT : Int := -100

/-- Game::update_senses, from wumpus.rs. -/
def Game.update_senses (g : Game) : Game :=
  { g with events :=
      { g.events with
          glitter := decide (g.location ∈ g.map.glitters),
          stench  := decide (g.location ∈ g.map.stenches),
          breeze  := decide (g.location ∈ g.map.breezes) } }

/-- Game::place_player, from wumpus.rs: discover the cell, apply wumpus and
pit consequences, then move there. -/
def Game.place_player (g : Game) (new_location : Coordinate) : Game :=
  let g := { g with map :=
      { g.map with discovered := insert new_location g.map.discovered } }
  let g :=
    if new_location ∈ g.map.wumpuses then
      { g with game_over := true,
               events := { g.events with gameover := true, wumpus := true },
               score := g.score + Game.SCORE_WUMPUS }
    else g
  let g :=
    if new_location ∈ g.map.pits then
      { g with events := { g.events with pit := true },
               score := g.score + Game.SCORE_PIT }
    else g
  { g with location := new_location }

/-- Game::do_action, from wumpus.rs. -/
def Game.do_action (g : Game) (action : Action) : Game :=
  if g.game_over then
    { g with events := { g.events with gameover := true } }
  else
    let g := { g with events := Events.default,
                      score := g.score + Game.SCORE_ACTION }
    let g :=
      match action with
      | .Walk =>
        let new_location := g.location.get_front g.direction
        if g.map.encompass new_location then g.place_player new_location
        else { g with events := { g.events with bonked := true } }
      | .Left => { g with direction := g.direction.rotate_left }
      | .Right => { g with direction := g.direction.rotate_right }
      | .Dig =>
        let g := { g with score := g.score + Game.SCORE_DUG }
        let g :=
          if g.location ∈ g.map.treasures then
            { g with map := g.map.remove_treasure g.location,
                     score := g.score + Game.SCORE_TREASURE,
                     events := { g.events with treasure := true } }
          else g
        if g.map.treasures = ∅ then
          { g with events := { g.events with gameover := true },
                   game_over := true }
        else g
      | .Shoot =>
        if 0 < g.arrows then
          let g := { g with arrows := g.arrows - 1,
                            score := g.score + Game.SCORE_SHOT }
          let front_location := g.location.get_front g.direction
          if front_location ∈ g.map.wumpuses then
            { g with map := g.map.remove_wumpus front_location,
                     events := { g.events with scream := true } }
          else g
        else g
    g.update_senses

/-- Game::new_random, from wumpus.rs, parameterized by the outcome of the
random draws: specials is the list of the six distinct random special
locations in the order they were drawn (2 treasures, then 1 wumpus, then
3 pits). -/
def Game.new_random_from (specials : List Coordinate) : Game :=
  let m := { Map.default with discovered := insert Game.SPAWN_LOCATION ∅ }
  let m := (specials.take 2).foldl Map.add_treasure m
  let m := ((specials.drop 2).take 1).foldl Map.add_wumpus m
  let m := ((specials.drop 3).take 3).foldl Map.add_pit m
  let g : Game :=
    { map := m, location := ⟨0, 0⟩, direction := Game.SPAWN_DIRECTION,
      events := Events.default, game_over := false, score := 0,
      arrows := Game.SPAWN_ARROWS }
  (g.place_player Game.SPAWN_LOCATION).update_senses

/-- The constraint that the random draw loop of Game::new_random establishes
on the six special locations: pairwise distinct, distinct from the spawn
cell, and each drawn from 0..SIZE_X times 0..SIZE_Y (exclusive upper end). -/
def ValidSpecials (specials : List Coordinate) : Prop :=
  specials.length = 6 ∧
  (Game.SPAWN_LOCATION :: specials).Nodup ∧
  ∀ c ∈ specials, 0 ≤ c.x ∧ c.x < Game.SIZE_X ∧ 0 ≤ c.y ∧ c.y < Game.SIZE_Y

/-- A game state reachable from some outcome of Game::new_random by a
sequence of Game::do_action calls. -/
def Reachable (g : Game) : Prop :=
  ∃ (specials : List Coordinate) (actions : List Action), ValidSpecials specials ∧
    g = actions.foldl Game.do_action (Game.new_random_from specials)

/-- hide_map, from algorithms.rs: clear the treasures outright and intersect
every other hidden set with the discovered set. -/
def hide_map (m : Map) : Map :=
  { m with treasures := ∅,
           wumpuses := m.discovered ∩ m.wumpuses,
           pits := m.discovered ∩ m.pits,
           glitters := m.discovered ∩ m.glitters,
           stenches := m.discovered ∩ m.stenches,
           breezes := m.discovered ∩ m.breezes }

/-- is_map_valid, from algorithms.rs.  The blacklist HashMap is modelled as
an association list of coordinate-class pairs; the Rust loop checks every
entry, which the list conjunction reproduces. -/
def is_map_valid (m : Map) (blacklist : List (Coordinate × Class)) : Bool :=
  decide (∀ c ∈ m.treasures, m.encompass c = true) &&
  decide (∀ c ∈ m.wumpuses, m.encompass c = true) &&
  decide (∀ c ∈ m.pits, m.encompass c = true) &&
  blacklist.all (fun lc =>
    match lc.2 with
    | .Treasure => decide (lc.1 ∉ m.treasures)
    | .Wumpus   => decide (lc.1 ∉ m.wumpuses)
    | .Pit      => decide (lc.1 ∉ m.pits)
    | .Empty    => decide (lc.1 ∉ m.treasures ∧ lc.1 ∉ m.wumpuses ∧
                           lc.1 ∉ m.pits)) &&
  decide (m.treasures.card ≤ 2) &&
  decide (m.wumpuses.card ≤ 1) &&
  decide (m.pits.card ≤ 3) &&
  decide (∀ t ∈ m.treasures, ∀ n ∈ t.get_neighbours,
            n ∈ m.discovered → n ∈ m.glitters) &&
  decide (∀ w ∈ m.wumpuses, ∀ n ∈ w.get_neighbours,
            n ∈ m.discovered → n ∈ m.stenches) &&
  decide (∀ p ∈ m.pits, ∀ n ∈ p.get_neighbours,
            n ∈ m.discovered → n ∈ m.breezes) &&
  decide (∀ g ∈ m.glitters, ∃ n ∈ g.get_neighbours,
            m.encompass n = true ∧ n ∈ m.treasures) &&
  decide (∀ s ∈ m.stenches, ∃ n ∈ s.get_neighbours,
            m.encompass n = true ∧ n ∈ m.wumpuses) &&
  decide (∀ b ∈ m.breezes, ∃ n ∈ b.get_neighbours,
            m.encompass n = true ∧ n ∈ m.pits)

/-- Association-list lookup: the value of the first pair whose key matches.
Models HashMap::get together with the prepend-style insert used below. -/
def lookupA {α : Type} (k : Coordinate) : List (Coordinate × α) → Option α
  | [] => none
  | p :: ps => if p.1 = k then some p.2 else lookupA k ps

/-- State of the pathfind loop: the three HashMaps and the VecDeque. -/
structure PathState where
  links : List (Coordinate × Coordinate)
  dirs  : List (Coordinate × Direction)
  costs : List (Coordinate × Int)
  queue : List Coordinate
deriving DecidableEq

/-- The candidate-cost computation inside the pathfind loop body: hazard
penalties, turn penalties relative to the arrival direction, and the
mandatory one step. -/
def stepCost (m : Map) (base : Int) (cdir : Direction) (rd : Direction)
    (nl : Coordinate) : Int :=
  let c := base
  let c := if nl ∈ m.wumpuses then c - Game.SCORE_WUMPUS else c
  let c := if nl ∈ m.pits then c - Game.SCORE_PIT else c
  let c := if rd = cdir.rotate_right then c + 1 else c
  let c := if rd = cdir.rotate_left then c + 1 else c
  let c := if rd = cdir.rotate_back then c + 2 else c
  c + 1

/-- One neighbour iteration of the pathfind loop body, from algorithms.rs.
The source indexes costs and dirs at the dequeued cell, which is always
present there; the getD defaults stand for those always-successful lookups.
The unwrap of get_relative_direction always succeeds on a grid neighbour;
its getD default likewise stands for a value that is never used. -/
def processNeighbour (m : Map) (current : Coordinate) (s : PathState)
    (nl : Coordinate) : PathState :=
  if m.encompass nl then
    let queue' :=
      if nl ∈ m.discovered ∧ (lookupA nl s.links).isNone
      then s.queue ++ [nl] else s.queue
    let known_cost := (lookupA nl s.costs).getD 2147483647
    let rd := (current.get_relative_direction nl).getD Direction.East
    let new_cost := stepCost m ((lookupA current s.costs).getD 0)
      ((lookupA current s.dirs).getD Direction.East) rd nl
    if new_cost < known_cost then
      { links := (nl, current) :: s.links,
        dirs  := (nl, rd) :: s.dirs,
        costs := (nl, new_cost) :: s.costs,
        queue := queue' }
    else { s with queue := queue' }
  else s

/-- One dequeue iteration of the pathfind while loop: process the four
neighbours of the dequeued cell in the fixed source order. -/
def processCell (m : Map) (s : PathState) (current : Coordinate) : PathState :=
  current.neighbourList.foldl (processNeighbour m current) s

/-- The pathfind while loop, with an explicit iteration budget.  On every
input arising in the game the loop drains its queue long before the budget
runs out, so the embedded function agrees with the source loop there. -/
def pathfindLoop (m : Map) : Nat → PathState → PathState
  | 0, s => s
  | fuel + 1, s =>
    match s.queue with
    | [] => s
    | current :: rest =>
      pathfindLoop m fuel (processCell m { s with queue := rest } current)

def pathfindFuel : Nat := 100000

/-- The state of the pathfind loop after it drains its queue (or exhausts
the iteration budget, which never happens on game inputs). -/
def pathfindState (initial_location : Coordinate)
    (initial_direction : Direction) (m : Map) : PathState :=
  pathfindLoop m pathfindFuel
    { links := [(initial_location, initial_location)],
      dirs  := [(initial_location, initial_direction)],
      costs := [(initial_location, 0)],
      queue := [initial_location] }

/-- pathfind, from algorithms.rs: returns the link map and the cost map. -/
def pathfind (initial_location : Coordinate) (initial_direction : Direction)
    (m : Map) : List (Coordinate × Coordinate) × List (Coordinate × Int) :=
  ((pathfindState initial_location initial_direction m).links,
   (pathfindState initial_location initial_direction m).costs)

/-- The backward link walk of path_to_actions, with an explicit iteration
budget; none signals an exhausted budget, which never happens on link maps
produced by pathfind (proved below). -/
def walkBack (pathmap : List (Coordinate × Coordinate)) :
    Nat → Coordinate → List Coordinate → Option (List Coordinate)
  | 0, _, _ => none
  | fuel + 1, location, path =>
    match lookupA location pathmap with
    | none => some path
    | some new_location =>
      if new_location ≠ location
      then walkBack pathmap fuel new_location (path ++ [new_location])
      else some path

/-- The turn-emitting fold of path_to_actions: walk consecutive path cells,
emitting turns relative to the current facing and then a Walk. -/
def actionsStep (acc : Direction × Coordinate × List Action)
    (new_location : Coordinate) : Direction × Coordinate × List Action :=
  let dir := acc.1
  let location := acc.2.1
  let actions := acc.2.2
  if new_location = location then acc
  else
    let nd := (location.get_relative_direction new_location).getD Direction.East
    let actions :=
      if nd = dir.rotate_back then actions ++ [Action.Right, Action.Right]
      else actions
    let actions := if nd = dir.rotate_right then actions ++ [Action.Right]
      else actions
    let actions := if nd = dir.rotate_left then actions ++ [Action.Left]
      else actions
    (nd, new_location, actions ++ [Action.Walk])

/-- path_to_actions, from algorithms.rs. -/
def path_to_actions (target : Coordinate) (initial_direction : Direction)
    (pathmap : List (Coordinate × Coordinate)) : Option (List Action) :=
  if (lookupA target pathmap).isNone then none
  else
    match walkBack pathmap (pathmap.length + 1) target [target] with
    | none => none
    | some path0 =>
      let path := path0.reverse
      some (path.foldl actionsStep
        (initial_direction, path.headD target, [])).2.2

/-- All lists of length n over the given per-slot choice lists; the product
of zero lists is the single empty list, the behaviour of the nullary
multi_cartesian_product used by calculate_map_possibilities. -/
def multiCartesianProduct {α : Type} : List (List α) → List (List α)
  | [] => [[]]
  | l :: ls => l.flatMap (fun x => (multiCartesianProduct ls).map (x :: ·))

/-- The tally update of calculate_map_possibilities: bump, per index, the
counter slot of the class assigned there. -/
def bumpCounts : List Class → List (ClassField Int) → List (ClassField Int)
  | [], counts => counts
  | _, [] => []
  | cl :: cls, cf :: cfs =>
    (match cl with
     | .Empty    => { cf with empty := cf.empty + 1 }
     | .Treasure => { cf with treasure := cf.treasure + 1 }
     | .Wumpus   => { cf with wumpus := cf.wumpus + 1 }
     | .Pit      => { cf with pit := cf.pit + 1 }) :: bumpCounts cls cfs

/-- calculate_map_possibilities, from algorithms.rs.  The two nested
permutation loops are flattened into one list of class assignments, outer
treasure permutation varying slowest as in the source; the returned HashMap
of per-location tallies is modelled as the zip of locations and tallies. -/
def calculate_map_possibilities (frontier possible_treasures : List Coordinate)
    (m : Map) (blacklist : List (Coordinate × Class)) :
    Int × List (Coordinate × ClassField Int) :=
  let locations := frontier ++ possible_treasures
  let assignments :=
    (multiCartesianProduct
        (List.replicate possible_treasures.length [Class.Empty, Class.Treasure])).flatMap
      (fun perm_treasures =>
        (multiCartesianProduct
            (List.replicate frontier.length Class.VALUES)).map
          (fun perm_frontier => perm_frontier ++ perm_treasures))
  let step := fun (acc : Int × List (ClassField Int)) (classes : List Class) =>
    let tmp_map := m.apply_classes locations classes
    if is_map_valid tmp_map blacklist
    then (acc.1 + 1, bumpCounts classes acc.2)
    else acc
  let r := assignments.foldl step
    (0, List.replicate locations.length ⟨0, 0, 0, 0⟩)
  (r.1, locations.zip r.2)

/-
Derived definitions used to state the claims.
-/

/-- The cells a map of the given size encompasses, as a finite set. -/
def boundedCells (size : Coordinate) : Finset Coordinate :=
  ((Finset.Icc 0 size.x) ×ˢ (Finset.Icc 0 size.y)).image
    (fun p => ⟨p.1, p.2⟩)

/-- The denormalized-marker invariant of the spec: a glitter, stench or
breeze marker sits at a cell exactly when one of its four orthogonal
neighbours holds the matching class. -/
def MarkerInv (m : Map) : Prop :=
  (∀ c, c ∈ m.glitters ↔ ∃ n ∈ c.get_neighbours, n ∈ m.treasures) ∧
  (∀ c, c ∈ m.stenches ↔ ∃ n ∈ c.get_neighbours, n ∈ m.wumpuses) ∧
  (∀ c, c ∈ m.breezes ↔ ∃ n ∈ c.get_neighbours, n ∈ m.pits)

/-- The in-bounds property of the ground-truth and discovered sets. -/
def MapInBounds (m : Map) : Prop :=
  (∀ c ∈ m.treasures, m.encompass c = true) ∧
  (∀ c ∈ m.wumpuses, m.encompass c = true) ∧
  (∀ c ∈ m.pits, m.encompass c = true) ∧
  (∀ c ∈ m.discovered, m.encompass c = true)

/-- The in-bounds property, read off a game state. -/
def CoreInBounds (g : Game) : Prop := MapInBounds g.map

/-- Iterated predecessor-link steps; a missing link leaves the coordinate
in place. -/
def followLinks (links : List (Coordinate × Coordinate)) :
    Nat → Coordinate → Coordinate
  | 0, c => c
  | n + 1, c => followLinks links n ((lookupA c links).getD c)

/-- The loop invariant of the pathfind traversal, carrying an upper
bound b on every stored cost: the start cell is stored with cost 0 and
linked to itself, links and costs share a key set, every queued cell has
a stored cost, stored costs lie in [0, b], and every link strictly
decreases the stored cost unless it is the start self-link. -/
structure InvState (start : Coordinate) (b : Int) (s : PathState) : Prop where
  cost_start : lookupA start s.costs = some 0
  link_start : lookupA start s.links = some start
  link_costs : ∀ k, (lookupA k s.links).isSome → (lookupA k s.costs).isSome
  costs_link : ∀ k, (lookupA k s.costs).isSome → (lookupA k s.links).isSome
  queue_costs : ∀ q ∈ s.queue, (lookupA q s.costs).isSome
  costs_bound : ∀ k c, lookupA k s.costs = some c → 0 ≤ c ∧ c ≤ b
  links_dec : ∀ k v, lookupA k s.links = some v →
    (k = start ∧ v = start) ∨
    ∃ ck cv, lookupA k s.costs = some ck ∧ lookupA v s.costs = some cv ∧
      cv < ck

/-
Concrete inputs used by witnesses and counterexamples.
-/

/-- One outcome of the random draws of Game::new_random: treasures (3,3)
and (1,1), wumpus (2,2), pits (1,2), (3,1), (1,3). -/
def specialsA : List Coordinate :=
  [⟨3, 3⟩, ⟨1, 1⟩, ⟨2, 2⟩, ⟨1, 2⟩, ⟨3, 1⟩, ⟨1, 3⟩]

/-- A map whose cell (0,0) is both discovered and holds a treasure. -/
def mapDiscoveredTreasure : Map :=
  { Map.default with treasures := {⟨0, 0⟩}, discovered := {⟨0, 0⟩} }

/-- The map of the spec's pathfinding example: (0,0), (1,0) and (0,1)
discovered, no hazards. -/
def mapC5 : Map :=
  { Map.default with discovered := insert ⟨0, 0⟩ (insert ⟨1, 0⟩ {⟨0, 1⟩}) }

/-- A running game at (0,0) facing East with one treasure at (2,2). -/
def gameDigFar : Game :=
  { map := { Map.default with treasures := {⟨2, 2⟩}, discovered := {⟨0, 0⟩} },
    location := ⟨0, 0⟩, direction := .East, events := Events.default,
    game_over := false, score := 0, arrows := 1 }

/-- A running game standing on the last remaining treasure. -/
def gameDigHere : Game :=
  { gameDigFar with map := { gameDigFar.map with treasures := {⟨0, 0⟩} } }

/-- A finished game. -/
def gameOverG : Game := { gameDigFar with game_over := true }

/-- A running game facing a wumpus one cell ahead, one arrow left. -/
def gameFacingWumpus : Game :=
  { map :=
      { Map.default with
          wumpuses := {⟨1, 0⟩}
          stenches := Coordinate.get_neighbours ⟨1, 0⟩
          discovered := {⟨0, 0⟩} },
    location := ⟨0, 0⟩, direction := .East, events := Events.default,
    game_over := false, score := 0, arrows := 1 }

/-- A map with a glitter marker that no treasure justifies. -/
def mapStrayGlitter : Map := { Map.default with glitters := {⟨1, 1⟩} }

/-
Helper lemmas.
-/

lemma encompass_iff (m : Map) (c : Coordinate) :
    m.encompass c = true ↔
      (0 ≤ c.x ∧ c.x ≤ m.size.x ∧ 0 ≤ c.y ∧ c.y ≤ m.size.y) := by
  simp [Map.encompass, and_assoc]

lemma place_player_map_size (g : Game) (nl : Coordinate) :
    (g.place_player nl).map.size = g.map.size := by
  simp only [Game.place_player]
  split_ifs <;> rfl

lemma foldl_size (f : Map → Coordinate → Map)
    (hf : ∀ m c, (f m c).size = m.size) :
    ∀ (l : List Coordinate) (m : Map), (l.foldl f m).size = m.size := by
  intro l
  induction l with
  | nil => intro m; rfl
  | cons a t ih => intro m; rw [List.foldl_cons, ih, hf]

lemma new_random_from_map_size (specials : List Coordinate) :
    (Game.new_random_from specials).map.size = (⟨3, 3⟩ : Coordinate) := by
  unfold Game.new_random_from Game.update_senses
  rw [place_player_map_size]
  rw [foldl_size Map.add_pit (fun m c => rfl)]
  rw [foldl_size Map.add_wumpus (fun m c => rfl)]
  rw [foldl_size Map.add_treasure (fun m c => rfl)]
  rfl

lemma mem_neighbourList {n c : Coordinate} :
    n ∈ c.neighbourList ↔
      (n = { c with x := c.x + 1 } ∨ n = { c with y := c.y - 1 } ∨
       n = { c with x := c.x - 1 } ∨ n = { c with y := c.y + 1 }) := by
  simp [Coordinate.neighbourList]

lemma mem_get_neighbours {n c : Coordinate} :
    n ∈ c.get_neighbours ↔ n ∈ c.neighbourList := by
  simp [Coordinate.get_neighbours]

lemma get_neighbours_symm {a b : Coordinate} :
    a ∈ b.get_neighbours ↔ b ∈ a.get_neighbours := by
  cases a with | mk ax ay =>
  cases b with | mk bx bb =>
  simp only [mem_get_neighbours, mem_neighbourList, Coordinate.mk.injEq]
  omega

lemma marker_add (markers hazards : Finset Coordinate) (l : Coordinate)
    (h : ∀ c, c ∈ markers ↔ ∃ n ∈ c.get_neighbours, n ∈ hazards)
    (c : Coordinate) :
    c ∈ markers ∪ l.get_neighbours ↔
      ∃ n ∈ c.get_neighbours, n ∈ insert l hazards := by
  rw [Finset.mem_union, h c]
  constructor
  · rintro (⟨n, hn, hh⟩ | hcl)
    · exact ⟨n, hn, Finset.mem_insert_of_mem hh⟩
    · exact ⟨l, get_neighbours_symm.mp hcl, Finset.mem_insert_self _ _⟩
  · rintro ⟨n, hn, hmem⟩
    rcases Finset.mem_insert.mp hmem with rfl | hh
    · exact Or.inr (get_neighbours_symm.mp hn)
    · exact Or.inl ⟨n, hn, hh⟩

lemma marker_remove (markers hazards : Finset Coordinate) (l : Coordinate)
    (h : ∀ c, c ∈ markers ↔ ∃ n ∈ c.get_neighbours, n ∈ hazards)
    (c : Coordinate) :
    c ∈ markers \ (l.get_neighbours.filter
        (fun nb => ¬ ∃ nn ∈ nb.get_neighbours, nn ∈ hazards.erase l)) ↔
      ∃ n ∈ c.get_neighbours, n ∈ hazards.erase l := by
  rw [Finset.mem_sdiff, Finset.mem_filter, h c]
  constructor
  · rintro ⟨⟨n, hn, hh⟩, hnotrem⟩
    by_cases hnl : n = l
    · subst hnl
      have hcl : c ∈ n.get_neighbours := get_neighbours_symm.mp hn
      exact not_not.mp (not_and.mp hnotrem hcl)
    · exact ⟨n, hn, Finset.mem_erase.mpr ⟨hnl, hh⟩⟩
  · rintro ⟨n, hn, hne⟩
    have hh : n ∈ hazards := (Finset.mem_erase.mp hne).2
    refine ⟨⟨n, hn, hh⟩, ?_⟩
    rintro ⟨hcl, hno⟩
    exact hno ⟨n, hn, hne⟩

lemma markerInv_default : MarkerInv Map.default := by
  refine ⟨?_, ?_, ?_⟩ <;> intro c <;> simp [Map.default]

lemma place_player_map (g : Game) (nl : Coordinate) :
    (g.place_player nl).map =
      { g.map with discovered := insert nl g.map.discovered } := by
  simp only [Game.place_player]
  split_ifs <;> rfl

lemma mapInBounds_insert_discovered (m : Map) (nl : Coordinate)
    (h : MapInBounds m) (hnl : m.encompass nl = true) :
    MapInBounds { m with discovered := insert nl m.discovered } := by
  obtain ⟨ht, hw, hp, hd⟩ := h
  refine ⟨ht, hw, hp, fun c hc => ?_⟩
  rcases Finset.mem_insert.mp hc with rfl | hc
  · exact hnl
  · exact hd c hc

lemma mapInBounds_remove_treasure (m : Map) (l : Coordinate)
    (h : MapInBounds m) : MapInBounds (m.remove_treasure l) := by
  obtain ⟨ht, hw, hp, hd⟩ := h
  exact ⟨fun c hc => ht c (Finset.mem_of_mem_erase hc), hw, hp, hd⟩

lemma mapInBounds_remove_wumpus (m : Map) (l : Coordinate)
    (h : MapInBounds m) : MapInBounds (m.remove_wumpus l) := by
  obtain ⟨ht, hw, hp, hd⟩ := h
  exact ⟨ht, fun c hc => hw c (Finset.mem_of_mem_erase hc), hp, hd⟩

lemma core_do_action (g : Game) (a : Action) (h : CoreInBounds g) :
    CoreInBounds (g.do_action a) := by
  by_cases hgo : g.game_over
  · simp only [Game.do_action, hgo, if_true]
    exact h
  · simp only [Game.do_action, hgo, if_false, Bool.false_eq_true]
    cases a with
    | Walk =>
      by_cases henc :
          g.map.encompass (g.location.get_front g.direction) = true
      · simp only [henc, if_true]
        show MapInBounds _
        rw [show ∀ gg : Game, gg.update_senses.map = gg.map from fun _ => rfl,
          place_player_map]
        exact mapInBounds_insert_discovered g.map _ h henc
      · simp only [henc, if_false]
        exact h
    | Left => exact h
    | Right => exact h
    | Dig =>
      by_cases hloc : g.location ∈ g.map.treasures
      · simp only [hloc, if_true]
        by_cases hemp : (g.map.remove_treasure g.location).treasures = ∅ <;>
          simp only [hemp, if_true, if_false] <;>
          exact mapInBounds_remove_treasure g.map _ h
      · simp only [hloc, if_false]
        by_cases hemp : g.map.treasures = ∅ <;>
          simp only [hemp, if_true, if_false] <;> exact h
    | Shoot =>
      by_cases harr : (0 : Int) < g.arrows
      · simp only [harr, if_true]
        by_cases hwum :
            g.location.get_front g.direction ∈ g.map.wumpuses
        · simp only [hwum, if_true]
          exact mapInBounds_remove_wumpus g.map _ h
        · simp only [hwum, if_false]
          exact h
      · simp only [harr, if_false]
        exact h

lemma new_random_from_map_of_place (specials : List Coordinate) :
    (Game.new_random_from specials).map =
      (let m := { Map.default with
                    discovered := insert Game.SPAWN_LOCATION ∅ }
       let m := (specials.take 2).foldl Map.add_treasure m
       let m := ((specials.drop 2).take 1).foldl Map.add_wumpus m
       let m := ((specials.drop 3).take 3).foldl Map.add_pit m
       { m with discovered := insert Game.SPAWN_LOCATION m.discovered }) := by
  unfold Game.new_random_from
  rw [show ∀ gg : Game, gg.update_senses.map = gg.map from fun _ => rfl,
    place_player_map]

lemma foldl_add_treasure_spec (l : List Coordinate) (m : Map) :
    (l.foldl Map.add_treasure m).wumpuses = m.wumpuses ∧
    (l.foldl Map.add_treasure m).pits = m.pits ∧
    (l.foldl Map.add_treasure m).discovered = m.discovered ∧
    ∀ c ∈ (l.foldl Map.add_treasure m).treasures, c ∈ m.treasures ∨ c ∈ l := by
  induction l generalizing m with
  | nil => exact ⟨rfl, rfl, rfl, fun c hc => Or.inl hc⟩
  | cons a t ih =>
    rw [List.foldl_cons]
    obtain ⟨h1, h2, h3, h4⟩ := ih (m.add_treasure a)
    refine ⟨h1, h2, h3, fun c hc => ?_⟩
    rcases h4 c hc with hm | hl
    · rcases Finset.mem_insert.mp hm with rfl | hm
      · exact Or.inr (List.mem_cons_self _ _)
      · exact Or.inl hm
    · exact Or.inr (List.mem_cons_of_mem _ hl)

lemma foldl_add_wumpus_spec (l : List Coordinate) (m : Map) :
    (l.foldl Map.add_wumpus m).treasures = m.treasures ∧
    (l.foldl Map.add_wumpus m).pits = m.pits ∧
    (l.foldl Map.add_wumpus m).discovered = m.discovered ∧
    ∀ c ∈ (l.foldl Map.add_wumpus m).wumpuses, c ∈ m.wumpuses ∨ c ∈ l := by
  induction l generalizing m with
  | nil => exact ⟨rfl, rfl, rfl, fun c hc => Or.inl hc⟩
  | cons a t ih =>
    rw [List.foldl_cons]
    obtain ⟨h1, h2, h3, h4⟩ := ih (m.add_wumpus a)
    refine ⟨h1, h2, h3, fun c hc => ?_⟩
    rcases h4 c hc with hm | hl
    · rcases Finset.mem_insert.mp hm with rfl | hm
      · exact Or.inr (List.mem_cons_self _ _)
      · exact Or.inl hm
    · exact Or.inr (List.mem_cons_of_mem _ hl)

lemma foldl_add_pit_spec (l : List Coordinate) (m : Map) :
    (l.foldl Map.add_pit m).treasures = m.treasures ∧
    (l.foldl Map.add_pit m).wumpuses = m.wumpuses ∧
    (l.foldl Map.add_pit m).discovered = m.discovered ∧
    ∀ c ∈ (l.foldl Map.add_pit m).pits, c ∈ m.pits ∨ c ∈ l := by
  induction l generalizing m with
  | nil => exact ⟨rfl, rfl, rfl, fun c hc => Or.inl hc⟩
  | cons a t ih =>
    rw [List.foldl_cons]
    obtain ⟨h1, h2, h3, h4⟩ := ih (m.add_pit a)
    refine ⟨h1, h2, h3, fun c hc => ?_⟩
    rcases h4 c hc with hm | hl
    · rcases Finset.mem_insert.mp hm with rfl | hm
      · exact Or.inr (List.mem_cons_self _ _)
      · exact Or.inl hm
    · exact Or.inr (List.mem_cons_of_mem _ hl)

lemma new_random_from_core (specials : List Coordinate)
    (h : ValidSpecials specials) :
    CoreInBounds (Game.new_random_from specials) := by
  obtain ⟨-, -, hbounds⟩ := h
  have hsize := new_random_from_map_size specials
  have hmap := new_random_from_map_of_place specials
  have hin : ∀ c ∈ specials,
      (Game.new_random_from specials).map.encompass c = true := by
    intro c hc
    rw [encompass_iff, hsize]
    have := hbounds c hc
    simp only [Game.SIZE_X, Game.SIZE_Y] at this
    show 0 ≤ c.x ∧ c.x ≤ 3 ∧ 0 ≤ c.y ∧ c.y ≤ 3
    omega
  have hspawn :
      (Game.new_random_from specials).map.encompass Game.SPAWN_LOCATION
        = true := by
    rw [encompass_iff, hsize]
    show (0 : Int) ≤ 0 ∧ (0 : Int) ≤ 3 ∧ (0 : Int) ≤ 0 ∧ (0 : Int) ≤ 3
    norm_num
  refine ⟨?_, ?_, ?_, ?_⟩ <;> intro c hc
  · rw [hmap] at hc
    obtain ⟨hp1, hp2, -, -⟩ := foldl_add_pit_spec
      ((specials.drop 3).take 3) _
    rw [hp1] at hc
    obtain ⟨hw1, -, -, -⟩ := foldl_add_wumpus_spec
      ((specials.drop 2).take 1) _
    rw [hw1] at hc
    obtain ⟨-, -, -, ht4⟩ := foldl_add_treasure_spec (specials.take 2) _
    rcases ht4 c hc with hm | hl
    · simp [Map.default] at hm
    · exact hin c (List.take_subset _ _ hl)
  · rw [hmap] at hc
    obtain ⟨-, hp2, -, -⟩ := foldl_add_pit_spec ((specials.drop 3).take 3) _
    rw [hp2] at hc
    obtain ⟨-, -, -, hw4⟩ := foldl_add_wumpus_spec
      ((specials.drop 2).take 1) _
    rcases hw4 c hc with hm | hl
    · obtain ⟨ht1, -, -, -⟩ := foldl_add_treasure_spec (specials.take 2) _
      rw [ht1] at hm
      simp [Map.default] at hm
    · exact hin c (List.drop_subset _ _ (List.take_subset _ _ hl))
  · rw [hmap] at hc
    obtain ⟨-, -, -, hp4⟩ := foldl_add_pit_spec ((specials.drop 3).take 3) _
    rcases hp4 c hc with hm | hl
    · obtain ⟨-, hw2, -, -⟩ := foldl_add_wumpus_spec
        ((specials.drop 2).take 1) _
      rw [hw2] at hm
      obtain ⟨-, ht2, -, -⟩ := foldl_add_treasure_spec (specials.take 2) _
      rw [ht2] at hm
      simp [Map.default] at hm
    · exact hin c (List.drop_subset _ _ (List.take_subset _ _ hl))
  · rw [hmap] at hc
    simp only [Finset.mem_insert] at hc
    obtain ⟨-, -, hp3, -⟩ := foldl_add_pit_spec ((specials.drop 3).take 3) _
    rcases hc with rfl | hc
    · exact hspawn
    · rw [hp3] at hc
      obtain ⟨-, -, hw3, -⟩ := foldl_add_wumpus_spec
        ((specials.drop 2).take 1) _
      rw [hw3] at hc
      obtain ⟨-, -, ht3, -⟩ := foldl_add_treasure_spec (specials.take 2) _
      rw [ht3] at hc
      simp only [Finset.mem_insert, Finset.not_mem_empty, or_false] at hc
      subst hc
      exact hspawn

lemma lookupA_cons {α : Type} (k k2 : Coordinate) (v : α)
    (l : List (Coordinate × α)) :
    lookupA k ((k2, v) :: l) = if k2 = k then some v else lookupA k l := rfl

lemma stepCost_bounds (m : Map) (base : Int) (cdir rd : Direction)
    (nl : Coordinate) :
    base + 1 ≤ stepCost m base cdir rd nl ∧
    stepCost m base cdir rd nl ≤ base + 305 := by
  simp only [stepCost, Game.SCORE_WUMPUS, Game.SCORE_PIT]
  split_ifs <;> omega

lemma InvState.mono {start : Coordinate} {b b2 : Int} {s : PathState}
    (h : InvState start b s) (hb : b ≤ b2) : InvState start b2 s :=
  ⟨h.cost_start, h.link_start, h.link_costs, h.costs_link, h.queue_costs,
   fun k c hc => ⟨(h.costs_bound k c hc).1,
     le_trans (h.costs_bound k c hc).2 hb⟩,
   h.links_dec⟩

lemma neighbourList_ne (c : Coordinate) : ∀ x ∈ c.neighbourList, x ≠ c := by
  intro x hx heq
  subst heq
  obtain ⟨cx, cy⟩ := x
  simp [Coordinate.neighbourList, Coordinate.mk.injEq] at hx
  omega

lemma processNeighbour_inv (m : Map) (start current nl : Coordinate)
    (s : PathState) (b : Int) (hinv : InvState start b s)
    (hcur : (lookupA current s.costs).isSome) (hne : nl ≠ current)
    (hb : b + 305 < 2147483647) :
    InvState start (b + 305) (processNeighbour m current s nl) ∧
    (lookupA current (processNeighbour m current s nl).costs).isSome := by
  obtain ⟨ccur, hccur⟩ := Option.isSome_iff_exists.mp hcur
  obtain ⟨hccur0, hccurb⟩ := hinv.costs_bound current ccur hccur
  by_cases henc : m.encompass nl = true
  swap
  · simp only [processNeighbour, henc, Bool.false_eq_true, if_false]
    exact ⟨hinv.mono (by omega), hcur⟩
  simp only [processNeighbour, henc, if_true]
  have hbase : (lookupA current s.costs).getD 0 = ccur := by rw [hccur]; rfl
  set nc := stepCost m ((lookupA current s.costs).getD 0)
    ((lookupA current s.dirs).getD Direction.East)
    ((current.get_relative_direction nl).getD Direction.East) nl with hnc
  have hb1 : ccur + 1 ≤ nc ∧ nc ≤ ccur + 305 := by
    rw [hnc, hbase]
    exact stepCost_bounds m ccur ((lookupA current s.dirs).getD Direction.East)
      ((current.get_relative_direction nl).getD Direction.East) nl
  set q2 := (if nl ∈ m.discovered ∧ (lookupA nl s.links).isNone
      then s.queue ++ [nl] else s.queue) with hq2
  have hq2mem : ∀ q ∈ q2,
      q ∈ s.queue ∨ (q = nl ∧ (lookupA nl s.links).isNone) := by
    rw [hq2]; split
    · rename_i hcond
      intro q hq
      rcases List.mem_append.mp hq with h | h
      · exact Or.inl h
      · simp only [List.mem_singleton] at h
        exact Or.inr ⟨h, hcond.2⟩
    · intro q hq; exact Or.inl hq
  by_cases hlt : nc < (lookupA nl s.costs).getD 2147483647
  · rw [if_pos hlt]
    have hnlstart : nl ≠ start := by
      intro h
      rw [h, hinv.cost_start] at hlt
      simp only [Option.getD_some] at hlt
      omega
    constructor
    · refine ⟨?_, ?_, ?_, ?_, ?_, ?_, ?_⟩
      · show lookupA start ((nl, nc) :: s.costs) = some 0
        rw [lookupA_cons, if_neg hnlstart]
        exact hinv.cost_start
      · show lookupA start ((nl, current) :: s.links) = some start
        rw [lookupA_cons, if_neg hnlstart]
        exact hinv.link_start
      · intro k
        show (lookupA k ((nl, current) :: s.links)).isSome →
          (lookupA k ((nl, nc) :: s.costs)).isSome
        rw [lookupA_cons, lookupA_cons]
        by_cases hk : nl = k
        · simp [hk]
        · rw [if_neg hk, if_neg hk]; exact hinv.link_costs k
      · intro k
        show (lookupA k ((nl, nc) :: s.costs)).isSome →
          (lookupA k ((nl, current) :: s.links)).isSome
        rw [lookupA_cons, lookupA_cons]
        by_cases hk : nl = k
        · simp [hk]
        · rw [if_neg hk, if_neg hk]; exact hinv.costs_link k
      · intro q hq
        show (lookupA q ((nl, nc) :: s.costs)).isSome
        rw [lookupA_cons]
        by_cases hk : nl = q
        · simp [hk]
        · rw [if_neg hk]
          rcases hq2mem q hq with h | ⟨rfl, -⟩
          · exact hinv.queue_costs q h
          · exact absurd rfl hk
      · intro k c hc
        rw [lookupA_cons] at hc
        by_cases hk : nl = k
        · rw [if_pos hk] at hc
          have : nc = c := Option.some.inj hc
          omega
        · rw [if_neg hk] at hc
          have := hinv.costs_bound k c hc
          omega
      · intro k v hv
        rw [lookupA_cons] at hv
        by_cases hk : nl = k
        · rw [if_pos hk] at hv
          have hvcur : current = v := Option.some.inj hv
          subst hvcur
          right
          refine ⟨nc, ccur, ?_, ?_, by omega⟩
          · show lookupA k ((nl, nc) :: s.costs) = some nc
            rw [lookupA_cons, if_pos hk]
          · show lookupA current ((nl, nc) :: s.costs) = some ccur
            rw [lookupA_cons, if_neg hne]
            exact hccur
        · rw [if_neg hk] at hv
          rcases hinv.links_dec k v hv with ⟨hk1, hv1⟩ | ⟨ck, cv, hck, hcv, hlt2⟩
          · exact Or.inl ⟨hk1, hv1⟩
          · right
            by_cases hvnl : nl = v
            · refine ⟨ck, nc, ?_, ?_, ?_⟩
              · show lookupA k ((nl, nc) :: s.costs) = some ck
                rw [lookupA_cons, if_neg hk]; exact hck
              · show lookupA v ((nl, nc) :: s.costs) = some nc
                rw [lookupA_cons, if_pos hvnl]
              · rw [hvnl, hcv] at hlt
                simp only [Option.getD_some] at hlt
                omega
            · refine ⟨ck, cv, ?_, ?_, hlt2⟩
              · show lookupA k ((nl, nc) :: s.costs) = some ck
                rw [lookupA_cons, if_neg hk]; exact hck
              · show lookupA v ((nl, nc) :: s.costs) = some cv
                rw [lookupA_cons, if_neg hvnl]; exact hcv
    · show (lookupA current ((nl, nc) :: s.costs)).isSome
      rw [lookupA_cons, if_neg hne]
      exact hcur
  · rw [if_neg hlt]
    have hmono := hinv.mono (show b ≤ b + 305 by omega)
    refine ⟨⟨hmono.cost_start, hmono.link_start, hmono.link_costs,
      hmono.costs_link, ?_, hmono.costs_bound, hmono.links_dec⟩, hcur⟩
    intro q hq
    rcases hq2mem q hq with h | ⟨rfl, hnone⟩
    · exact hinv.queue_costs q h
    · exfalso
      have hcostnone : lookupA q s.costs = none := by
        cases hcs : lookupA q s.costs with
        | none => rfl
        | some c =>
          have hl2 := hinv.costs_link q (by simp [hcs])
          rw [Option.isNone_iff_eq_none] at hnone
          rw [hnone] at hl2
          simp at hl2
      rw [hcostnone] at hlt
      simp only [Option.getD_none] at hlt
      omega

lemma foldl_processNeighbour_inv (m : Map) (start current : Coordinate)
    (l : List Coordinate) (hl : ∀ x ∈ l, x ≠ current) :
    ∀ (s : PathState) (b : Int), InvState start b s →
      (lookupA current s.costs).isSome →
      b + 305 * (l.length : Int) < 2147483647 →
      InvState start (b + 305 * (l.length : Int))
        (l.foldl (processNeighbour m current) s) ∧
      (lookupA current
        (l.foldl (processNeighbour m current) s).costs).isSome := by
  induction l with
  | nil =>
    intro s b hinv hcur hb
    simp only [List.foldl_nil, List.length_nil, Nat.cast_zero, mul_zero,
      add_zero]
    exact ⟨hinv, hcur⟩
  | cons a t ih =>
    intro s b hinv hcur hb
    rw [List.foldl_cons]
    have hlen : ((a :: t).length : Int) = (t.length : Int) + 1 := by
      simp only [List.length_cons]; push_cast; ring
    rw [hlen] at hb
    have hb1 : b + 305 < 2147483647 := by
      have h0 : (0 : Int) ≤ (t.length : Int) := by positivity
      nlinarith
    obtain ⟨hinv1, hcur1⟩ := processNeighbour_inv m start current a s b hinv
      hcur (hl a (List.mem_cons_self a t)) hb1
    have hb2 : (b + 305) + 305 * (t.length : Int) < 2147483647 := by linarith
    obtain ⟨hinv2, hcur2⟩ := ih (fun x hx => hl x (List.mem_cons_of_mem a hx))
      _ (b + 305) hinv1 hcur1 hb2
    rw [hlen]
    exact ⟨hinv2.mono (by linarith), hcur2⟩

lemma pathfindLoop_inv (m : Map) (start : Coordinate) :
    ∀ (fuel : Nat) (s : PathState) (b : Int), InvState start b s →
      b + 1220 * (fuel : Int) < 2147483647 →
      ∃ b2, InvState start b2 (pathfindLoop m fuel s) := by
  intro fuel
  induction fuel with
  | zero => intro s b hinv _; exact ⟨b, hinv⟩
  | succ n ih =>
    intro s b hinv hb
    cases hq : s.queue with
    | nil =>
      simp only [pathfindLoop, hq]
      exact ⟨b, hinv⟩
    | cons current rest =>
      simp only [pathfindLoop, hq]
      have hinv1 : InvState start b { s with queue := rest } :=
        ⟨hinv.cost_start, hinv.link_start, hinv.link_costs, hinv.costs_link,
         fun q hqq => hinv.queue_costs q
           (by rw [hq]; exact List.mem_cons_of_mem _ hqq),
         hinv.costs_bound, hinv.links_dec⟩
      have hcur : (lookupA current s.costs).isSome :=
        hinv.queue_costs current (by rw [hq]; exact List.mem_cons_self _ _)
      push_cast at hb
      have h0 : (0 : Int) ≤ 1220 * (n : Int) := by positivity
      have hlen : ((current.neighbourList).length : Int) = 4 := by
        simp [Coordinate.neighbourList]
      have hb1 : b + 305 * ((current.neighbourList).length : Int)
          < 2147483647 := by
        rw [hlen]; linarith
      obtain ⟨hinv2, -⟩ := foldl_processNeighbour_inv m start current
        current.neighbourList (neighbourList_ne current)
        { s with queue := rest } b hinv1 hcur hb1
      have hb2 : (b + 305 * ((current.neighbourList).length : Int)) +
          1220 * (n : Int) < 2147483647 := by
        rw [hlen]; linarith
      exact ih (processCell m { s with queue := rest } current) _ hinv2 hb2

lemma invState_init (il : Coordinate) (idir : Direction) :
    InvState il 0 { links := [(il, il)], dirs := [(il, idir)],
                    costs := [(il, 0)], queue := [il] } := by
  refine ⟨?_, ?_, ?_, ?_, ?_, ?_, ?_⟩
  · simp [lookupA]
  · simp [lookupA]
  · intro k
    simp only [lookupA]
    split <;> simp
  · intro k
    simp only [lookupA]
    split <;> simp
  · intro q hq
    simp only [List.mem_singleton] at hq
    subst hq
    simp [lookupA]
  · intro k c hc
    simp only [lookupA] at hc
    split at hc
    · have : (0 : Int) = c := Option.some.inj hc
      omega
    · exact absurd hc (by simp)
  · intro k v hv
    simp only [lookupA] at hv
    split at hv
    · rename_i hik
      exact Or.inl ⟨hik.symm, (Option.some.inj hv).symm⟩
    · exact absurd hv (by simp)

lemma pathfindState_inv (il : Coordinate) (idir : Direction) (m : Map) :
    ∃ b, InvState il b (pathfindState il idir m) := by
  apply pathfindLoop_inv m il pathfindFuel _ 0 (invState_init il idir)
  norm_num [pathfindFuel]

lemma followLinks_reaches (start : Coordinate) (b : Int) (s : PathState)
    (hinv : InvState start b s) :
    ∀ (N : Nat) (k : Coordinate) (ck : Int),
      lookupA k s.costs = some ck → ck.toNat ≤ N →
      ∃ n, followLinks s.links n k = start := by
  intro N
  induction N with
  | zero =>
    intro k ck hck hN
    by_cases hk : k = start
    · exact ⟨0, hk⟩
    · have hls : (lookupA k s.links).isSome :=
        hinv.costs_link k (by simp [hck])
      obtain ⟨v, hv⟩ := Option.isSome_iff_exists.mp hls
      rcases hinv.links_dec k v hv with ⟨hk1, -⟩ | ⟨ck2, cv, hck2, hcv, hlt⟩
      · exact absurd hk1 hk
      · have heq : ck2 = ck := by
          rw [hck] at hck2
          exact (Option.some.inj hck2).symm
        have hcv0 := (hinv.costs_bound v cv hcv).1
        omega
  | succ n ih =>
    intro k ck hck hN
    by_cases hk : k = start
    · exact ⟨0, hk⟩
    · have hls : (lookupA k s.links).isSome :=
        hinv.costs_link k (by simp [hck])
      obtain ⟨v, hv⟩ := Option.isSome_iff_exists.mp hls
      rcases hinv.links_dec k v hv with ⟨hk1, -⟩ | ⟨ck2, cv, hck2, hcv, hlt⟩
      · exact absurd hk1 hk
      · have heq : ck2 = ck := by
          rw [hck] at hck2
          exact (Option.some.inj hck2).symm
        have hcv0 := (hinv.costs_bound v cv hcv).1
        obtain ⟨n2, hn2⟩ := ih v cv hcv (by omega)
        refine ⟨n2 + 1, ?_⟩
        show followLinks s.links n2 ((lookupA k s.links).getD k) = start
        rw [hv]
        simpa using hn2

lemma walkBack_isSome (start : Coordinate) (b : Int) (s : PathState)
    (hinv : InvState start b s) :
    ∀ (N : Nat) (k : Coordinate) (ck : Int) (acc : List Coordinate),
      lookupA k s.costs = some ck → ck.toNat ≤ N →
      (walkBack s.links (N + 1) k acc).isSome := by
  intro N
  induction N with
  | zero =>
    intro k ck acc hck hN
    cases hv : lookupA k s.links with
    | none => simp [walkBack, hv]
    | some v =>
      by_cases hvk : v = k
      · simp [walkBack, hv, hvk]
      · rcases hinv.links_dec k v hv with ⟨hk1, hv1⟩ | ⟨ck2, cv, hck2, hcv, hlt⟩
        · exact absurd (hv1.trans hk1.symm) hvk
        · have heq : ck2 = ck := by
            rw [hck] at hck2
            exact (Option.some.inj hck2).symm
          have hcv0 := (hinv.costs_bound v cv hcv).1
          omega
  | succ n ih =>
    intro k ck acc hck hN
    cases hv : lookupA k s.links with
    | none => simp [walkBack, hv]
    | some v =>
      by_cases hvk : v = k
      · simp [walkBack, hv, hvk]
      · rcases hinv.links_dec k v hv with ⟨hk1, hv1⟩ | ⟨ck2, cv, hck2, hcv, hlt⟩
        · exact absurd (hv1.trans hk1.symm) hvk
        · have heq : ck2 = ck := by
            rw [hck] at hck2
            exact (Option.some.inj hck2).symm
          have hcv0 := (hinv.costs_bound v cv hcv).1
          have hrec := ih v cv (acc ++ [v]) hcv (by omega)
          simpa [walkBack, hv, hvk] using hrec

/-
Claim theorems.
-/

/-- Claim C1, counterexample: for a concrete outcome of the random draws of
new_random the map encompasses 16 cells, not the 25 the claim asserts. -/
theorem c1_counterexample :
    ValidSpecials specialsA ∧
    (boundedCells (Game.new_random_from specialsA).map.size).card ≠ 25 := by
  constructor
  · exact ⟨by decide, by decide, by decide⟩
  · rw [new_random_from_map_size]; decide

/-- Claim C1, amended: every game returned by new_random has map size (3,3);
a coordinate is in bounds (encompass) iff 0 ≤ x ≤ size.x and 0 ≤ y ≤ size.y,
and the number of in-bounds cells is 16 (a 4 by 4 grid), not 25. -/
theorem c1_grid_16 (specials : List Coordinate) (_h : ValidSpecials specials) :
    (Game.new_random_from specials).map.size = (⟨3, 3⟩ : Coordinate) ∧
    (∀ c, (Game.new_random_from specials).map.encompass c = true ↔
      (0 ≤ c.x ∧ c.x ≤ (Game.new_random_from specials).map.size.x ∧
       0 ≤ c.y ∧ c.y ≤ (Game.new_random_from specials).map.size.y)) ∧
    (boundedCells (Game.new_random_from specials).map.size).card = 16 := by
  refine ⟨new_random_from_map_size specials, ?_, ?_⟩
  · intro c; exact encompass_iff _ c
  · rw [new_random_from_map_size]; decide

/-- Claim C1, witness for the amended theorem at a concrete draw. -/
theorem c1_grid_16_witness :
    (Game.new_random_from specialsA).map.size = (⟨3, 3⟩ : Coordinate) ∧
    (boundedCells (Game.new_random_from specialsA).map.size).card = 16 :=
  ⟨(c1_grid_16 specialsA ⟨by decide, by decide, by decide⟩).1,
   (c1_grid_16 specialsA ⟨by decide, by decide, by decide⟩).2.2⟩

/-- Claim C2, counterexample: hide_map clears the treasure set outright, so
on a map whose discovered cell (0,0) holds a treasure the result differs
from the claimed intersection with the discovered set. -/
theorem c2_counterexample :
    (hide_map mapDiscoveredTreasure).treasures ≠
      mapDiscoveredTreasure.discovered ∩ mapDiscoveredTreasure.treasures := by
  decide

/-- Claim C2, amended: hide_map empties treasures, replaces each of
wumpuses, pits, glitters, stenches, breezes with its intersection with the
discovered set, and leaves size and discovered unchanged. -/
theorem c2_hide_map_spec (m : Map) :
    (hide_map m).treasures = ∅ ∧
    (hide_map m).wumpuses = m.discovered ∩ m.wumpuses ∧
    (hide_map m).pits = m.discovered ∩ m.pits ∧
    (hide_map m).glitters = m.discovered ∩ m.glitters ∧
    (hide_map m).stenches = m.discovered ∩ m.stenches ∧
    (hide_map m).breezes = m.discovered ∩ m.breezes ∧
    (hide_map m).size = m.size ∧
    (hide_map m).discovered = m.discovered :=
  ⟨rfl, rfl, rfl, rfl, rfl, rfl, rfl, rfl⟩

/-- Claim C3, counterexample: digging on a treasureless cell costs the dig
penalty plus the per-action cost, so the score drops by 51, not by the
claimed exactly 50. -/
theorem c3_counterexample :
    gameDigFar.game_over = false ∧
    gameDigFar.location ∉ gameDigFar.map.treasures ∧
    gameDigFar.map.treasures ≠ ∅ ∧
    (gameDigFar.do_action .Dig).score ≠ gameDigFar.score - 50 := by
  decide

/-- Claim C3, amended: on a running game, digging with no treasure on the
current cell while treasure remains decreases score by exactly 51 (the -1
action cost plus the -50 dig cost) and leaves the treasure event unset;
digging the last remaining treasure sets the treasure event, the game-over
event and the game-over flag. -/
theorem c3_dig_scoring (g : Game) (h : g.game_over = false) :
    (g.location ∉ g.map.treasures → g.map.treasures ≠ ∅ →
      (g.do_action .Dig).score = g.score - 51 ∧
      (g.do_action .Dig).events.treasure = false) ∧
    (g.map.treasures = {g.location} →
      (g.do_action .Dig).events.treasure = true ∧
      (g.do_action .Dig).events.gameover = true ∧
      (g.do_action .Dig).game_over = true) := by
  constructor
  · intro h1 h2
    simp [Game.do_action, h, h1, h2, Game.update_senses, Game.SCORE_ACTION,
      Game.SCORE_DUG, Events.default]
    omega
  · intro h2
    have h1 : g.location ∈ g.map.treasures := by
      rw [h2]; exact Finset.mem_singleton_self _
    simp [Game.do_action, h, h1, h2, Map.remove_treasure, Game.update_senses,
      Events.default]

/-- Claim C3, witness for the amended theorem at concrete games. -/
theorem c3_dig_scoring_witness :
    ((gameDigFar.do_action .Dig).score = gameDigFar.score - 51 ∧
     (gameDigFar.do_action .Dig).events.treasure = false) ∧
    ((gameDigHere.do_action .Dig).events.treasure = true ∧
     (gameDigHere.do_action .Dig).events.gameover = true ∧
     (gameDigHere.do_action .Dig).game_over = true) :=
  ⟨(c3_dig_scoring gameDigFar rfl).1 (by decide) (by decide),
   (c3_dig_scoring gameDigHere rfl).2 (by decide)⟩

/-- Claim C6: once game_over is set, any action only re-asserts the
game-over event; score, arrows, location, direction, the whole map and all
other event flags are unchanged. -/
theorem c6_gameover_frame (g : Game) (a : Action) (h : g.game_over = true) :
    (g.do_action a).events.gameover = true ∧
    (g.do_action a).score = g.score ∧
    (g.do_action a).arrows = g.arrows ∧
    (g.do_action a).location = g.location ∧
    (g.do_action a).direction = g.direction ∧
    (g.do_action a).map = g.map ∧
    (g.do_action a).events.treasure = g.events.treasure ∧
    (g.do_action a).events.wumpus = g.events.wumpus ∧
    (g.do_action a).events.pit = g.events.pit ∧
    (g.do_action a).events.glitter = g.events.glitter ∧
    (g.do_action a).events.stench = g.events.stench ∧
    (g.do_action a).events.breeze = g.events.breeze ∧
    (g.do_action a).events.bonked = g.events.bonked ∧
    (g.do_action a).events.scream = g.events.scream ∧
    (g.do_action a).game_over = g.game_over := by
  simp [Game.do_action, h]

/-- Claim C6, witness at a concrete finished game. -/
theorem c6_gameover_frame_witness :
    (gameOverG.do_action .Walk).events.gameover = true ∧
    (gameOverG.do_action .Walk).score = gameOverG.score :=
  ⟨(c6_gameover_frame gameOverG .Walk rfl).1,
   (c6_gameover_frame gameOverG .Walk rfl).2.1⟩

/-- Claim C8, counterexample: with an empty frontier and empty
candidate-treasure slice the enumeration checks only the unchanged map, so
a map failing is_map_valid (a stray glitter) yields 0 possibilities, not
the claimed 1 for every map. -/
theorem c8_counterexample :
    (calculate_map_possibilities [] [] mapStrayGlitter []).1 ≠ 1 := by
  decide

/-- Claim C8, amended: with an empty frontier and empty candidate-treasure
slice, calculate_map_possibilities returns total_possibilities 1 exactly
when the unchanged map passes is_map_valid against the blacklist (the
single empty assignment), and 0 otherwise. -/
theorem c8_empty_enumeration (m : Map) (bl : List (Coordinate × Class)) :
    (calculate_map_possibilities [] [] m bl).1 =
      if is_map_valid m bl = true then 1 else 0 := by
  by_cases h : is_map_valid m bl = true
  · simp [calculate_map_possibilities, multiCartesianProduct,
      Map.apply_classes, h, bumpCounts]
  · simp [calculate_map_possibilities, multiCartesianProduct,
      Map.apply_classes, h, bumpCounts]

/-- Claim C7: each of the six hazard-mutating map operations preserves the
marker invariant: a glitter, stench or breeze marker exists at a cell iff
one of its four orthogonal neighbours holds the matching class. -/
theorem c7_marker_invariant (m : Map) (l : Coordinate) (h : MarkerInv m) :
    MarkerInv (m.add_treasure l) ∧ MarkerInv (m.add_wumpus l) ∧
    MarkerInv (m.add_pit l) ∧ MarkerInv (m.remove_treasure l) ∧
    MarkerInv (m.remove_wumpus l) ∧ MarkerInv (m.remove_pit l) := by
  obtain ⟨hg, hs, hb⟩ := h
  exact ⟨⟨fun c => marker_add m.glitters m.treasures l hg c, hs, hb⟩,
         ⟨hg, fun c => marker_add m.stenches m.wumpuses l hs c, hb⟩,
         ⟨hg, hs, fun c => marker_add m.breezes m.pits l hb c⟩,
         ⟨fun c => marker_remove m.glitters m.treasures l hg c, hs, hb⟩,
         ⟨hg, fun c => marker_remove m.stenches m.wumpuses l hs c, hb⟩,
         ⟨hg, hs, fun c => marker_remove m.breezes m.pits l hb c⟩⟩

/-- Claim C7, witness: the empty default map satisfies the invariant, and
the theorem carries it through an add_treasure. -/
theorem c7_marker_invariant_witness :
    MarkerInv (Map.default.add_treasure ⟨1, 1⟩) :=
  (c7_marker_invariant Map.default ⟨1, 1⟩ markerInv_default).1

/-- Claim C9: on a running game with an arrow left and the wumpus directly
ahead, Shoot sets the scream event and removes the cell from wumpuses; and
on any running game whose front cell holds no wumpus, Walk sets neither the
wumpus event nor game-over. -/
theorem c9_shoot_removes_wumpus :
    (∀ g : Game, g.game_over = false → 0 < g.arrows →
      g.location.get_front g.direction ∈ g.map.wumpuses →
      (g.do_action .Shoot).events.scream = true ∧
      g.location.get_front g.direction ∉ (g.do_action .Shoot).map.wumpuses) ∧
    (∀ g : Game, g.game_over = false →
      g.location.get_front g.direction ∉ g.map.wumpuses →
      (g.do_action .Walk).events.wumpus = false ∧
      (g.do_action .Walk).game_over = false ∧
      (g.do_action .Walk).events.gameover = false) := by
  constructor
  · intro g h ha hw
    simp [Game.do_action, h, ha, hw, Map.remove_wumpus, Game.update_senses]
  · intro g h hw
    simp only [Game.do_action, h]
    simp only [Bool.false_eq_true, if_false]
    by_cases he :
        (g.map.encompass (g.location.get_front g.direction)) = true
    · simp [he, Game.place_player, Game.update_senses, hw, Events.default]
      split_ifs <;> simp
    · simp [he, Game.update_senses, Events.default]

/-- Claim C9, witness: shoot the wumpus ahead, then walk onto its cell. -/
theorem c9_shoot_removes_wumpus_witness :
    (gameFacingWumpus.do_action .Shoot).events.scream = true ∧
    ((gameFacingWumpus.do_action .Shoot).do_action .Walk).events.wumpus
      = false :=
  ⟨(c9_shoot_removes_wumpus.1 gameFacingWumpus rfl (by decide) (by decide)).1,
   (c9_shoot_removes_wumpus.2 (gameFacingWumpus.do_action .Shoot)
      (by decide) (by decide)).1⟩

/-- Claim C4, counterexample: a freshly generated game with a treasure at
the corner (3,3) is reachable, yet its glitter set holds the out-of-bounds
cell (4,3), so not every element of every map set lies within bounds. -/
theorem c4_counterexample :
    Reachable (Game.new_random_from specialsA) ∧
    (⟨4, 3⟩ : Coordinate) ∈ (Game.new_random_from specialsA).map.glitters ∧
    (Game.new_random_from specialsA).map.encompass ⟨4, 3⟩ = false :=
  ⟨⟨specialsA, [], ⟨by decide, by decide, by decide⟩, rfl⟩,
   by decide, by decide⟩

/-- Claim C4, amended: in every state reachable from new_random by
do_action calls, every element of the treasures, wumpuses, pits and
discovered sets lies within map bounds; the derived marker sets (glitters,
stenches, breezes) are exempt, since adding a hazard inserts all four of
its neighbour markers without a bounds check. -/
theorem c4_reachable_core (g : Game) (h : Reachable g) :
    (∀ c ∈ g.map.treasures, g.map.encompass c = true) ∧
    (∀ c ∈ g.map.wumpuses, g.map.encompass c = true) ∧
    (∀ c ∈ g.map.pits, g.map.encompass c = true) ∧
    (∀ c ∈ g.map.discovered, g.map.encompass c = true) := by
  obtain ⟨specials, actions, hval, rfl⟩ := h
  suffices H : ∀ (acts : List Action) (g0 : Game), CoreInBounds g0 →
      CoreInBounds (acts.foldl Game.do_action g0) by
    exact H actions _ (new_random_from_core specials hval)
  intro acts
  induction acts with
  | nil => intro g0 hg; exact hg
  | cons a t ih => intro g0 hg; exact ih _ (core_do_action g0 a hg)

/-- Claim C4, witness: the treasure cell (3,3) of the concrete reachable
game is in bounds. -/
theorem c4_reachable_core_witness :
    (Game.new_random_from specialsA).map.encompass ⟨3, 3⟩ = true :=
  (c4_reachable_core (Game.new_random_from specialsA)
    ⟨specialsA, [], ⟨by decide, by decide, by decide⟩, rfl⟩).1
    ⟨3, 3⟩ (by decide)

/-- Claim C5, counterexample: on the example map, pathfind from (0,0)
facing East assigns cost 1 to (1,0) and cost 2 to (0,1), not the claimed
costs 2 and 3. -/
theorem c5_counterexample :
    lookupA ⟨1, 0⟩ (pathfind ⟨0, 0⟩ .East mapC5).2 ≠ some 2 ∧
    lookupA ⟨0, 1⟩ (pathfind ⟨0, 0⟩ .East mapC5).2 ≠ some 3 := by
  decide

/-- Claim C5, amended: on a map where (0,0), (1,0) and (0,1) are discovered
with no wumpus or pit, pathfind from (0,0) facing East assigns cost 1 to
(1,0) and cost 2 to (0,1) (the always-charged step plus the turn penalty,
with no extra base charge), and path_to_actions yields the sequence Walk
for (1,0) and Left then Walk for (0,1). -/
theorem c5_pathfind_example :
    lookupA ⟨1, 0⟩ (pathfind ⟨0, 0⟩ .East mapC5).2 = some 1 ∧
    lookupA ⟨0, 1⟩ (pathfind ⟨0, 0⟩ .East mapC5).2 = some 2 ∧
    path_to_actions ⟨1, 0⟩ .East (pathfind ⟨0, 0⟩ .East mapC5).1
      = some [.Walk] ∧
    path_to_actions ⟨0, 1⟩ .East (pathfind ⟨0, 0⟩ .East mapC5).1
      = some [.Left, .Walk] := by
  decide

/-- Claim C10: the link map returned by pathfind is acyclic: the start is
self-linked, and from any linked key, iterating predecessor links reaches
the start in finitely many steps, so the backward link walk of
path_to_actions terminates (its fueled form succeeds for some budget). -/
theorem c10_pathfind_links_terminate (il : Coordinate) (idir : Direction)
    (m : Map) (target v : Coordinate)
    (h : lookupA target (pathfind il idir m).1 = some v) :
    lookupA il (pathfind il idir m).1 = some il ∧
    (∃ n, followLinks (pathfind il idir m).1 n target = il) ∧
    (∃ n, (walkBack (pathfind il idir m).1 n target [target]).isSome) := by
  obtain ⟨b, hinv⟩ := pathfindState_inv il idir m
  have hlink : lookupA target (pathfindState il idir m).links = some v := h
  have hcs : (lookupA target (pathfindState il idir m).costs).isSome :=
    hinv.link_costs target (by simp [hlink])
  obtain ⟨ck, hck⟩ := Option.isSome_iff_exists.mp hcs
  refine ⟨hinv.link_start, ?_, ?_⟩
  · exact followLinks_reaches il b _ hinv ck.toNat target ck hck le_rfl
  · exact ⟨ck.toNat + 1,
      walkBack_isSome il b _ hinv ck.toNat target ck [target] hck le_rfl⟩

/-- Claim C10, witness at the concrete example map and target (0,1). -/
theorem c10_pathfind_links_terminate_witness :
    lookupA ⟨0, 0⟩ (pathfind ⟨0, 0⟩ .East mapC5).1 = some ⟨0, 0⟩ ∧
    (∃ n, followLinks (pathfind ⟨0, 0⟩ .East mapC5).1 n ⟨0, 1⟩ = ⟨0, 0⟩) ∧
    (∃ n, (walkBack (pathfind ⟨0, 0⟩ .East mapC5).1 n ⟨0, 1⟩
      [⟨0, 1⟩]).isSome) :=
  c10_pathfind_links_terminate ⟨0, 0⟩ .East mapC5 ⟨0, 1⟩ ⟨0, 0⟩ (by decide)

end WW
